import Mathlib

/-!
Verification of the Falcor `AssimpImporter` scene-conversion core
(`Source/Falcor/Scene/Importers/AssimpImporter.cpp`).

The development shallowly embeds the importer's data model and algorithms:

* animation keyframe merging (`createAnimation`, `parseAnimationChannel`,
  `resetNegativeKeyframeTimes`, lines 209-289),
* skin-weight assignment (`loadBones`, lines 460-519),
* mesh filtering and the parallel process / sequential commit phases
  (`createMeshes`, lines 521-616),
* instance expansion (`addMeshInstances`, lines 715-747),
* bone validation (`validateBones`, `createBoneMap`, `countMeshInstances`,
  lines 928-988).

Numeric values (`double`, `float`) are modelled as rationals; vector and
quaternion payloads carried by keys are modelled by a single rational
stand-in because the importer never inspects them, it only copies them.
Machine loops become structural recursions (the one genuine `while` loop,
the keyframe merge, is given explicit fuel).
-/

namespace AssimpSpec

/-- Import modes distinguished by the importer (`enum class ImportMode`,
lines 71-75). -/
inductive ImportMode where
  | Default
  | OBJ
  | GLTF2
deriving DecidableEq

/-- One Assimp animation key (`aiVectorKey` / `aiQuatKey`): a tick time
`mTime` plus a payload `mValue` (payload modelled by one rational). -/
structure AiKey where
  time : ℚ
  value : ℚ
deriving DecidableEq

/-- Falcor `Animation::Keyframe`: a time in seconds plus translation,
rotation and scaling payloads (payloads modelled by one rational each). -/
structure Keyframe where
  time : ℚ
  translation : ℚ
  rotation : ℚ
  scaling : ℚ
deriving DecidableEq

/-- The three key arrays of one Assimp animation channel (`aiNodeAnim`):
position, rotation and scaling keys. -/
structure AnimChannel where
  positionKeys : List AiKey
  rotationKeys : List AiKey
  scalingKeys : List AiKey
deriving DecidableEq

/-- `parseAnimationChannel` (lines 209-221): if the cursor is past the end,
report exhaustion; if the next unconsumed key's time equals `time`, copy its
value and advance the cursor; finally report whether the cursor is exhausted.
Returns (new cursor, new resolved value, exhausted?). -/
def parseAnimationChannel (keys : List AiKey) (time : ℚ) (currentIndex : ℕ)
    (falcor : ℚ) : ℕ × ℚ × Bool :=
  if keys.length ≤ currentIndex then (currentIndex, falcor, true)
  else
    let k := keys.getD currentIndex ⟨0, 0⟩
    if k.time = time then
      (currentIndex + 1, k.value, decide (keys.length ≤ currentIndex + 1))
    else
      (currentIndex, falcor, decide (keys.length ≤ currentIndex))

/-- `nextKeyTime` (lines 266-274): starting from `-DBL_MAX`, take the
`std::max` over the next unconsumed key time of each non-exhausted array.
`none` models the `FALCOR_ASSERT` firing when all arrays are exhausted. -/
def nextKeyTime (pk rk sk : List AiKey) (pos rot scale : ℕ) : Option ℚ :=
  let cands : List ℚ :=
    (if pos < pk.length then [(pk.getD pos ⟨0, 0⟩).time] else []) ++
    (if rot < rk.length then [(rk.getD rot ⟨0, 0⟩).time] else []) ++
    (if scale < sk.length then [(sk.getD scale ⟨0, 0⟩).time] else [])
  match cands with
  | [] => none
  | t :: ts => some (ts.foldl max t)

/-- The `while (!done)` merge loop of `createAnimation` (lines 262-287),
emitting keyframes with tick times (the division by `ticksPerSecond` is
applied afterwards, see `createAnimationKeyframes`). `fuel` bounds the
iteration count; `mergeTicks` supplies enough fuel for the loop to finish. -/
def mergeLoop (pk rk sk : List AiKey) :
    ℕ → ℕ → ℕ → ℕ → Keyframe → Option (List Keyframe)
  | 0, _, _, _, _ => none
  | fuel + 1, pos, rot, scale, kf =>
    match nextKeyTime pk rk sk pos rot scale with
    | none => none
    | some t =>
      let p := parseAnimationChannel pk t pos kf.translation
      let r := parseAnimationChannel rk t rot kf.rotation
      let s := parseAnimationChannel sk t scale kf.scaling
      let kf1 : Keyframe := ⟨t, p.2.1, r.2.1, s.2.1⟩
      -- done = parse(scale) && (parse(rot) && parse(pos)), lines 283-285
      let done := s.2.2 && (r.2.2 && p.2.2)
      if done then some [kf1]
      else
        match mergeLoop pk rk sk fuel p.1 r.1 s.1 kf1 with
        | none => none
        | some rest => some (kf1 :: rest)

/-- The keyframe merge of `createAnimation` in tick time units.  The initial
keyframe is `Animation::Keyframe`'s default (time 0, zero translation,
identity rotation, unit scaling).  Each loop iteration consumes at least one
key, so `total number of keys + 1` fuel always suffices. -/
def mergeTicks (pk rk sk : List AiKey) : Option (List Keyframe) :=
  mergeLoop pk rk sk (pk.length + rk.length + sk.length + 1) 0 0 0 ⟨0, 0, 1, 1⟩

/-- The merged keyframes produced by `createAnimation` (lines 262-287):
tick times divided by `ticksPerSecond` (line 280). -/
def createAnimationKeyframes (tps : ℚ) (pk rk sk : List AiKey) :
    Option (List Keyframe) :=
  (mergeTicks pk rk sk).map
    (List.map fun kf => ⟨kf.time / tps, kf.translation, kf.rotation, kf.scaling⟩)

/-- The ticks-per-second rate of `createAnimation` (lines 239-242):
the declared rate if nonzero, else 25; forced to 1000 in GLTF2 mode. -/
def ticksPerSecond (importMode : ImportMode) (declared : ℚ) : ℚ :=
  let t := if declared ≠ 0 then declared else 25
  if importMode = ImportMode.GLTF2 then 1000 else t

/-- The `resetTime` lambda of `resetNegativeKeyframeTimes` (lines 225-229):
clamp a key array's first time to 0 when it is negative.  (The
`FALCOR_ASSERT(keys[1].mTime >= 0)` is a debug assertion with no effect on
the produced data and is not modelled.) -/
def resetTime : List AiKey → List AiKey
  | [] => []
  | k :: rest => (if k.time < 0 then ⟨0, k.value⟩ else k) :: rest

/-- `resetNegativeKeyframeTimes` (lines 223-233): clamp the first key of
each of the three arrays, writing into the externally supplied channel. -/
def resetNegativeKeyframeTimes (c : AnimChannel) : AnimChannel :=
  ⟨resetTime c.positionKeys, resetTime c.rotationKeys, resetTime c.scalingKeys⟩

/-- Time of the last merged keyframe, if any. -/
def lastKeyframeTime (o : Option (List Keyframe)) : Option ℚ :=
  o.bind fun l => l.getLast?.map Keyframe.time

/-! ### Skin weight assignment (`loadBones`, lines 460-519) -/

/-- `Scene::kMaxBonesPerVertex`: the fixed number of influence slots per
vertex (4). -/
def kMaxBonesPerVertex : ℕ := 4

/-- `NodeID::kInvalidID` (`0xffffffff`): the reserved invalid-bone
identifier filled into unused influence slots (line 468). -/
def kInvalidID : ℕ := 4294967295

/-- One `aiBone` as `loadBones` consumes it: the Falcor node id resolved by
`data.getFalcorNodeID(pAiBone->mName.C_Str(), 0)` (line 475) plus the
`aiVertexWeight` list of (`mVertexId`, `mWeight`) pairs. -/
structure SkinBone where
  boneId : ℕ
  weights : List (ℕ × ℚ)
deriving DecidableEq

/-- The two per-vertex output arrays of `loadBones`: `ids` (each entry a
`uint4` of bone node ids) and `ws` (each entry a `float4` of weights),
both indexed by vertex. -/
structure SkinState where
  ids : List (List ℕ)
  ws : List (List ℚ)
deriving DecidableEq

/-- The slot-search loop of `loadBones` (lines 492-502): walk the vertex's
(id, weight) slots in parallel and write (`bid`, `w`) into the first slot
whose id is `kInvalidID`; the boolean is `emptySlotFound`. -/
def writeFirstFreeSlot : List ℕ → List ℚ → ℕ → ℚ → List ℕ × List ℚ × Bool
  | i :: is, x :: xs, bid, w =>
    if i = kInvalidID then (bid :: is, w :: xs, true)
    else
      let r := writeFirstFreeSlot is xs bid w
      (i :: r.1, x :: r.2.1, r.2.2)
  | is, xs, _, _ => (is, xs, false)

/-- The body of the per-weight loop of `loadBones` (lines 479-508): skip
zero weights; otherwise write into the first free slot of the affected
vertex, counting a warning (`logWarning`, line 506) when no slot is free.
The accumulator is (state, warning count). -/
def applyVertexWeight (aiBoneID : ℕ) (acc : SkinState × ℕ) (vw : ℕ × ℚ) :
    SkinState × ℕ :=
  if vw.2 = 0 then acc
  else
    let st := acc.1
    let r := writeFirstFreeSlot (st.ids.getD vw.1 []) (st.ws.getD vw.1 []) aiBoneID vw.2
    (⟨st.ids.set vw.1 r.1, st.ws.set vw.1 r.2.1⟩,
     if r.2.2 then acc.2 else acc.2 + 1)

/-- The per-bone loop of `loadBones` (lines 471-509). -/
def processBone (acc : SkinState × ℕ) (bone : SkinBone) : SkinState × ℕ :=
  bone.weights.foldl (applyVertexWeight bone.boneId) acc

/-- Initialization of `loadBones` (lines 464-468): every vertex starts with
all slots holding `kInvalidID` and weight 0. -/
def initialSkinState (vertexCount : ℕ) : SkinState :=
  ⟨List.replicate vertexCount (List.replicate kMaxBonesPerVertex kInvalidID),
   List.replicate vertexCount (List.replicate kMaxBonesPerVertex 0)⟩

/-- The slot-assignment phase of `loadBones` (lines 460-509), before
normalization. -/
def skinAssign (vertexCount : ℕ) (bones : List SkinBone) : SkinState × ℕ :=
  bones.foldl processBone (initialSkinState vertexCount, 0)

/-- The normalization pass of `loadBones` (lines 511-518): every vertex's
weights — influenced or not — are divided by their sum (`w /= f` with no
guard against `f == 0`). -/
def normalizeWeights (ws : List (List ℚ)) : List (List ℚ) :=
  ws.map fun w => w.map (· / w.sum)

/-- `loadBones` (lines 460-519): slot assignment followed by weight
normalization; also returns the number of overflow warnings. -/
def loadBones (vertexCount : ℕ) (bones : List SkinBone) : SkinState × ℕ :=
  let r := skinAssign vertexCount bones
  (⟨r.1.ids, normalizeWeights r.1.ws⟩, r.2)

/-- Invariant tying a vertex's id slots to its weight slots during the
slot-assignment phase of `loadBones`: each slot either still holds
`kInvalidID` with weight 0, or holds a written bone id with a positive
weight. -/
def SlotInv (ids : List ℕ) (ws : List ℚ) : Prop :=
  List.Forall₂ (fun i w => (i = kInvalidID ∧ w = 0) ∨ (i ≠ kInvalidID ∧ 0 < w)) ids ws

/-- `SlotInv` between the id slots and weight slots of every vertex. -/
def StateInv (s : SkinState) : Prop :=
  List.Forall₂ SlotInv s.ids s.ws

/-! ### Scene data: matrices, nodes, meshes -/

/-- A 4x4 matrix (`aiMatrix4x4` / `rmcv::mat4`), modelled as its row-major
entry list; the importer paths embedded here only ever compare matrices for
equality and copy them. -/
structure Mat4 where
  entries : List ℚ
deriving DecidableEq

/-- The identity matrix, i.e. a default-constructed `rmcv::mat4()` /
`aiMatrix4x4`. -/
def identityMat : Mat4 :=
  ⟨[1, 0, 0, 0, 0, 1, 0, 0, 0, 0, 1, 0, 0, 0, 0, 1]⟩

/-- An `aiNode`: name, local transformation (`mTransformation`), referenced
mesh indices (`mMeshes`) and children. -/
inductive AiNode where
  | mk (name : String) (transform : Mat4) (meshes : List ℕ) (children : List AiNode)

/-- An `aiMesh` as the importer reads it for filtering and validation:
`mName`, `mFaces` (each face its index list) and the names of its bones
(`mBones[i]->mName`). -/
structure AiMeshSrc where
  name : String
  faces : List (List ℕ)
  boneNames : List String
deriving DecidableEq

mutual
/-- The DFS of `countMeshInstances` (lines 944-963), collecting one
(mesh index, node transformation) pair per mesh reference in pre-order.
The C++ stores the `aiNode*` itself; the validator reads only the node's
`mTransformation`, which is what we record. -/
def nodeMeshPairs : AiNode → List (ℕ × Mat4)
  | .mk _ t ms cs => ms.map (fun m => (m, t)) ++ nodeMeshPairsList cs
/-- DFS over a child list, left to right (lines 955-958). -/
def nodeMeshPairsList : List AiNode → List (ℕ × Mat4)
  | [] => []
  | c :: rest => nodeMeshPairs c ++ nodeMeshPairsList rest
end

/-- `countMeshInstances` (lines 944-963) specialized to one mesh index:
the transformations of the nodes instancing mesh `m`, in DFS order. -/
def meshInstanceTransforms (root : AiNode) (m : ℕ) : List Mat4 :=
  ((nodeMeshPairs root).filter fun p => p.1 == m).map Prod.snd

/-- `createBoneMap` (lines 928-942) looked up at one bone name: the indices
of the meshes declaring a bone of that name, one entry per declaration, in
mesh order. -/
def boneMeshList (meshes : List AiMeshSrc) (bone : String) : List ℕ :=
  meshes.enum.flatMap fun p => (p.2.boneNames.filter fun b => b == bone).map fun _ => p.1

/-- The key set of `createBoneMap`: every bone name declared by some mesh.
(`std::map` iterates keys in sorted order; we keep first-appearance order —
whether `validateBones` raises an error does not depend on this order, as
`c4_validate_amended` shows.) -/
def allBoneNames (meshes : List AiMeshSrc) : List String :=
  (meshes.flatMap AiMeshSrc.boneNames).dedup

/-- The two distinct `ImporterError`s `validateBones` can throw
(lines 979 and 984). -/
inductive BoneError where
  | multipleInstances (bone : String)
  | differentWorldMatrices (bone : String)
deriving DecidableEq

/-- The inner loop of `validateBones` (lines 975-986) for one bone: walk
the bone's mesh list; throw `multipleInstances` when a mesh's instance
count differs from 1, and `differentWorldMatrices` when the (single)
instance's transformation differs from the previous mesh's. `prev` carries
`meshInstances[b.second[i-1]][0]->mTransformation`. -/
def checkBoneMeshes (instT : ℕ → List Mat4) (bone : String) :
    Option Mat4 → List ℕ → Option BoneError
  | _, [] => none
  | prev, m :: rest =>
    if (instT m).length ≠ 1 then some (BoneError.multipleInstances bone)
    else
      let t := (instT m).headD identityMat
      match prev with
      | some tp =>
        if t ≠ tp then some (BoneError.differentWorldMatrices bone)
        else checkBoneMeshes instT bone (some t) rest
      | none => checkBoneMeshes instT bone (some t) rest

/-- The outer loop of `validateBones` (lines 973-987): check every bone,
returning the first error thrown. -/
def validateBonesGo (instT : ℕ → List Mat4) (meshes : List AiMeshSrc) :
    List String → Option BoneError
  | [] => none
  | n :: rest =>
    match checkBoneMeshes instT n none (boneMeshList meshes n) with
    | some e => some e
    | none => validateBonesGo instT meshes rest

/-- `validateBones` (lines 965-988): `none` means no error was thrown. -/
def validateBones (meshes : List AiMeshSrc) (root : AiNode) : Option BoneError :=
  validateBonesGo (meshInstanceTransforms root) meshes (allBoneNames meshes)

/-- The stages of `AssimpImporter::import` (lines 1038-1066), in call
order. -/
inductive ImportStage where
  | validate
  | materials
  | sceneGraph
  | meshes
  | instances
  | animations
  | cameras
  | lights
deriving DecidableEq

/-- The call order of the import pipeline (lines 1038-1066):
`validateScene`, `createAllMaterials`, `createSceneGraph`, `createMeshes`,
`addMeshInstances`, `createAnimations`, `createCameras`, `createLights`. -/
def importStages : List ImportStage :=
  [ImportStage.validate, ImportStage.materials, ImportStage.sceneGraph,
   ImportStage.meshes, ImportStage.instances, ImportStage.animations,
   ImportStage.cameras, ImportStage.lights]

/-! ### Mesh filtering, parallel processing, sequential commit
(`createMeshes`, lines 521-616) -/

/-- The filter condition of `createMeshes` (lines 527-540): keep a mesh iff
it has faces (`HasFaces()`) and its FIRST face (`mFaces->mNumIndices`) has
exactly 3 indices. -/
def keepMesh (m : AiMeshSrc) : Bool :=
  match m.faces with
  | [] => false
  | f :: _ => f.length == 3

/-- The filter loop of `createMeshes` (lines 526-540): returns the kept
meshes in order and the number of skip warnings logged (one per skipped
mesh; the import continues). -/
def filterMeshes : List AiMeshSrc → List AiMeshSrc × ℕ
  | [] => ([], 0)
  | m :: rest =>
    let r := filterMeshes rest
    match m.faces with
    | [] => (r.1, r.2 + 1)
    | f :: _ => if f.length ≠ 3 then (r.1, r.2 + 1) else (m :: r.1, r.2)

/-- The parallel phase of `createMeshes` (lines 543-605): tasks run in some
completion order; task `i` writes `process i` into its own pre-sized slot
`processedMeshes[i]` and touches nothing else. -/
def runParallelTasks {α : Type} (process : ℕ → α) (order : List ℕ)
    (slots : List (Option α)) : List (Option α) :=
  order.foldl (fun s i => s.set i (some (process i))) slots

/-- The sequential commit loop of `createMeshes` (lines 610-615): iterate
the results collection front to back; the `i`-th commit is paired with the
mesh id the builder assigns, which is the commit counter. -/
def commitProcessed {α : Type} (slots : List (Option α)) : List (ℕ × Option α) :=
  slots.enum

/-- The meshes actually committed by `createMeshes`: the filtered list, in
original relative order. -/
def committedMeshes (ms : List AiMeshSrc) : List AiMeshSrc :=
  (filterMeshes ms).1

/-- The `meshMap` built by the commit loop (lines 610-615): key `i` is the
loop counter over `processedMeshes` (i.e. the position in the FILTERED
list), and the value is the builder-assigned mesh id, sequential in commit
order (0-based for a fresh builder). -/
def meshMapPairs (ms : List AiMeshSrc) : List (ℕ × ℕ) :=
  (List.range (committedMeshes ms).length).map fun i => (i, i)

/-- The lookup `data.meshMap.at(pNode->mMeshes[mesh])` performed by
`addMeshInstances` (line 720); `none` models `std::map::at` throwing. -/
def lookupMeshID (ms : List AiMeshSrc) (origIdx : ℕ) : Option ℕ :=
  ((meshMapPairs ms).find? fun p => p.1 == origIdx).map Prod.snd

/-! ### Instance expansion (`addMeshInstances`, lines 715-747) -/

/-- A node registered through `SceneBuilder::addNode` by the instance
expansion (lines 730-734): name, parent node id, transform. -/
structure NodeRec where
  name : String
  parent : ℕ
  transform : Mat4
deriving DecidableEq

/-- The name given to a spawned instance node (line 731):
`"Node" + to_string(nodeID) + ".instance" + std::to_string(instance)`. -/
def instanceNodeName (nodeID idx : ℕ) : String :=
  "Node" ++ toString nodeID ++ ".instance" ++ toString idx

/-- The per-mesh instance loop of `addMeshInstances` (lines 724-737): for
each requested transform, a non-identity transform spawns a new node (ids
assigned sequentially from `nextID` by the builder) and binds the mesh
instance to it; an identity transform binds directly to `nodeID`.
Returns (new nodes, (node id, mesh id) bindings, next free node id);
`idx` is the running instance index. -/
def expandInstances (nodeID meshID : ℕ) :
    ℕ → ℕ → List Mat4 → List NodeRec × List (ℕ × ℕ) × ℕ
  | nextID, _, [] => ([], [], nextID)
  | nextID, idx, m :: rest =>
    if m = identityMat then
      let r := expandInstances nodeID meshID nextID (idx + 1) rest
      (r.1, (nodeID, meshID) :: r.2.1, r.2.2)
    else
      let nd : NodeRec := ⟨instanceNodeName nodeID idx, nodeID, m⟩
      let r := expandInstances nodeID meshID (nextID + 1) (idx + 1) rest
      (nd :: r.1, (nextID, meshID) :: r.2.1, r.2.2)

/-- The per-mesh body of `addMeshInstances` (lines 720-739): with no
requested instance transforms the mesh binds directly to the node
(line 739), otherwise the instance loop runs. -/
def addMeshInstancesForMesh (nodeID meshID nextID : ℕ) (modelInstances : List Mat4) :
    List NodeRec × List (ℕ × ℕ) × ℕ :=
  if modelInstances = [] then ([], [(nodeID, meshID)], nextID)
  else expandInstances nodeID meshID nextID 0 modelInstances

/-- The number of non-identity matrices in a transform list (the "K" of
claim C6). -/
def countNonIdentity : List Mat4 → ℕ
  | [] => 0
  | m :: rest => (if m = identityMat then 0 else 1) + countNonIdentity rest

/-- Modelled from the spec: the nodes instance expansion is specified to
create — one node per non-identity transform, parented under the node and
named from the node's identifier and the instance index, carrying that
transform. Compared with `expandInstances` in `c6_instance_expansion`. -/
def expectedNewNodes (nodeID : ℕ) : ℕ → List Mat4 → List NodeRec
  | _, [] => []
  | idx, m :: rest =>
    if m = identityMat then expectedNewNodes nodeID (idx + 1) rest
    else ⟨instanceNodeName nodeID idx, nodeID, m⟩ :: expectedNewNodes nodeID (idx + 1) rest

/-- Whether a key list's first key time is nonnegative (the case in which
`resetTime` leaves the array untouched). -/
def firstKeyTimeNonneg (l : List AiKey) : Prop :=
  0 ≤ (l.headD ⟨0, 0⟩).time

instance (l : List AiKey) : Decidable (firstKeyTimeNonneg l) :=
  inferInstanceAs (Decidable (0 ≤ (l.headD ⟨0, 0⟩).time))

/-- Claim C1.  The merge does NOT visit the union of the three key arrays'
time values in strictly ascending order: `nextKeyTime` takes the `std::max`
(not the minimum) of the next unconsumed key times, so with position keys at
ticks 0 and 10, rotation keys at 0 and 5, and one scaling key at 0, the loop
emits keyframes at times 0, 10, 5 — the third iteration revisits time 5
after time 10, violating the code's own
`FALCOR_ASSERT(time == 0 || (time / ticksPerSecond) > keyframe.time)`
(line 279), and producing a keyframe sequence whose times are not strictly
increasing. -/
theorem c1_merge_not_ascending :
    mergeTicks [⟨0, 7⟩, ⟨10, 8⟩] [⟨0, 5⟩, ⟨5, 6⟩] [⟨0, 3⟩] =
      some [⟨0, 7, 5, 3⟩, ⟨10, 8, 5, 3⟩, ⟨5, 8, 6, 3⟩] ∧
    ¬ List.Chain' (fun a b : Keyframe => a.time < b.time)
      [⟨0, 7, 5, 3⟩, ⟨10, 8, 5, 3⟩, ⟨5, 8, 6, 3⟩] := by
  constructor
  · decide
  · simp [List.chain'_cons]
    norm_num

/-- Claim C3, counterexample.  An animation with declared duration 2 ticks,
no declared rate (0), import mode `Default`, whose only channel has position
keys at ticks 0 and 1 and no rotation/scaling keys: the applicable rate is
25, but the last merged keyframe's time is 1/25, not
duration / ticksPerSecond = 2/25 — the code never consults the declared
duration when emitting keyframes. -/
theorem c3_last_time_counterexample :
    ticksPerSecond ImportMode.Default 0 = 25 ∧
    lastKeyframeTime (createAnimationKeyframes 25 [⟨0, 7⟩, ⟨1, 9⟩] [] [])
      = some (1 / 25) ∧
    (1 / 25 : ℚ) ≠ 2 / 25 := by
  refine ⟨by decide, ?_, by norm_num⟩
  simp [createAnimationKeyframes, mergeTicks, mergeLoop, nextKeyTime,
    parseAnimationChannel, lastKeyframeTime]

/-- Claim C3, amended.  The time conversion rate is fixed to 1000 in GLTF2
mode regardless of the declared rate, and otherwise equals the declared rate
or 25 when the declared rate is zero; a key array's first key with a
negative time is clamped to zero (later keys are untouched); and the last
merged keyframe's time equals `dur / ticksPerSecond` whenever `dur` equals
the tick time of the last key the merge visits (rather than for the
animation's independently declared duration field). -/
theorem c3_time_conversion_amended
    (mode : ImportMode) (declared : ℚ)
    (k : AiKey) (ks pk rk sk : List AiKey)
    (tks : List Keyframe) (lk : Keyframe) (dur : ℚ)
    (hm : mergeTicks pk rk sk = some tks)
    (hlast : tks.getLast? = some lk)
    (hdur : dur = lk.time) :
    ticksPerSecond mode declared
      = (if mode = ImportMode.GLTF2 then 1000
         else if declared = 0 then 25 else declared) ∧
    resetTime (k :: ks) = (if k.time < 0 then (⟨0, k.value⟩ : AiKey) else k) :: ks ∧
    lastKeyframeTime (createAnimationKeyframes (ticksPerSecond mode declared) pk rk sk)
      = some (dur / ticksPerSecond mode declared) := by
  refine ⟨?_, rfl, ?_⟩
  · by_cases hg : mode = ImportMode.GLTF2 <;> by_cases hd : declared = 0 <;>
      simp [ticksPerSecond, hg, hd]
  · rw [createAnimationKeyframes, hm]
    simp [lastKeyframeTime, List.getLast?_map, hlast, hdur]

/-- Witness for `c3_time_conversion_amended` at a concrete input. -/
theorem c3_time_conversion_amended_witness :
    ticksPerSecond ImportMode.Default 3
      = (if ImportMode.Default = ImportMode.GLTF2 then 1000
         else if (3 : ℚ) = 0 then 25 else 3) ∧
    resetTime ((⟨-1, 4⟩ : AiKey) :: []) =
      (if (⟨-1, 4⟩ : AiKey).time < 0 then (⟨0, (⟨-1, 4⟩ : AiKey).value⟩ : AiKey)
       else ⟨-1, 4⟩) :: [] ∧
    lastKeyframeTime
        (createAnimationKeyframes (ticksPerSecond ImportMode.Default 3) [⟨0, 7⟩] [] [])
      = some (0 / ticksPerSecond ImportMode.Default 3) :=
  c3_time_conversion_amended ImportMode.Default 3 ⟨-1, 4⟩ [] [⟨0, 7⟩] [] []
    [⟨0, 7, 1, 1⟩] ⟨0, 7, 1, 1⟩ 0 (by decide) (by decide) (by decide)

/-- `resetTime` leaves a key array whose first time is nonnegative
untouched (there is no other write in `resetNegativeKeyframeTimes`). -/
theorem resetTime_eq_self (l : List AiKey) (h : firstKeyTimeNonneg l) :
    resetTime l = l := by
  cases l with
  | nil => rfl
  | cons k ks =>
    simp only [firstKeyTimeNonneg, List.headD_cons] at h
    simp [resetTime, not_lt.2 h]

/-- Claim C8, counterexample.  `resetNegativeKeyframeTimes` writes into the
externally supplied scene: a channel whose first position key has time -1
is not left unchanged (its key's `mTime` field is overwritten with 0),
contradicting the claim that no field of the external scene representation
is written by any stage. -/
theorem c8_external_keys_mutated :
    resetNegativeKeyframeTimes ⟨[⟨-1, 5⟩], [], []⟩
      ≠ (⟨[⟨-1, 5⟩], [], []⟩ : AnimChannel) := by
  decide

/-- Claim C8, amended.  The conversion leaves the external scene unchanged
except for `resetNegativeKeyframeTimes`, which overwrites the first key's
time field of each of the channel's three key arrays with 0 when that time
is negative: a channel whose three arrays all start at nonnegative times is
returned unchanged, the clamp never changes key values, never touches any
key past the first, and rewrites the head exactly as the clamp states. -/
theorem c8_reset_amended (c : AnimChannel) (l : List AiKey) (k : AiKey)
    (ks : List AiKey)
    (h1 : firstKeyTimeNonneg c.positionKeys)
    (h2 : firstKeyTimeNonneg c.rotationKeys)
    (h3 : firstKeyTimeNonneg c.scalingKeys) :
    resetNegativeKeyframeTimes c = c ∧
    (resetTime l).map AiKey.value = l.map AiKey.value ∧
    (resetTime l).drop 1 = l.drop 1 ∧
    resetTime (k :: ks) = (if k.time < 0 then (⟨0, k.value⟩ : AiKey) else k) :: ks := by
  refine ⟨?_, ?_, ?_, rfl⟩
  · cases c with
    | mk p r s =>
      simp only [AnimChannel.mk.injEq, resetNegativeKeyframeTimes]
      exact ⟨resetTime_eq_self _ h1, resetTime_eq_self _ h2, resetTime_eq_self _ h3⟩
  · cases l with
    | nil => rfl
    | cons a as => by_cases h : a.time < 0 <;> simp [resetTime, h]
  · cases l with
    | nil => rfl
    | cons a as => by_cases h : a.time < 0 <;> simp [resetTime, h]

/-- Witness for `c8_reset_amended` at a concrete input. -/
theorem c8_reset_amended_witness :
    resetNegativeKeyframeTimes ⟨[⟨0, 1⟩], [], [⟨2, 3⟩]⟩
      = (⟨[⟨0, 1⟩], [], [⟨2, 3⟩]⟩ : AnimChannel) ∧
    (resetTime [⟨-1, 2⟩, ⟨4, 5⟩]).map AiKey.value
      = ([⟨-1, 2⟩, ⟨4, 5⟩] : List AiKey).map AiKey.value ∧
    (resetTime [⟨-1, 2⟩, ⟨4, 5⟩]).drop 1 = ([⟨-1, 2⟩, ⟨4, 5⟩] : List AiKey).drop 1 ∧
    resetTime ((⟨-1, 2⟩ : AiKey) :: []) =
      (if (⟨-1, 2⟩ : AiKey).time < 0 then (⟨0, (⟨-1, 2⟩ : AiKey).value⟩ : AiKey)
       else ⟨-1, 2⟩) :: [] :=
  c8_reset_amended ⟨[⟨0, 1⟩], [], [⟨2, 3⟩]⟩ [⟨-1, 2⟩, ⟨4, 5⟩] ⟨-1, 2⟩ []
    (by decide) (by decide) (by decide)

/-- Claim C7, counterexample.  A mesh whose first face is a triangle but
whose second face has 4 indices is NOT uniformly triangular, yet the filter
keeps it: `createMeshes` only inspects `mFaces->mNumIndices`, i.e. the
first face (the remaining faces are merely asserted equal later, inside
`createIndexList`). -/
theorem c7_mixed_topology_kept :
    (filterMeshes [⟨"T", [[0, 1, 2], [0, 1, 2, 3]], []⟩]).1
      = [⟨"T", [[0, 1, 2], [0, 1, 2, 3]], []⟩] ∧
    ((⟨"T", [[0, 1, 2], [0, 1, 2, 3]], []⟩ : AiMeshSrc).faces.all
      fun f => f.length == 3) = false := by
  decide

/-- Claim C7, amended.  Mesh filtering skips, with one warning each and
without aborting, exactly the meshes that have no faces or whose FIRST
face's index count differs from 3; every mesh with faces whose first face
has 3 indices is kept, in order (uniformity of the remaining faces is not
checked by the filter). -/
theorem c7_filter_amended (ms : List AiMeshSrc) :
    (filterMeshes ms).1 = ms.filter keepMesh ∧
    (filterMeshes ms).2 = (ms.filter fun m => !keepMesh m).length := by
  induction ms with
  | nil => exact ⟨rfl, rfl⟩
  | cons m rest ih =>
    cases hf : m.faces with
    | nil =>
      have hk : keepMesh m = false := by simp [keepMesh, hf]
      simp [filterMeshes, hf, hk, List.filter_cons, ih.1, ih.2]
    | cons f fs =>
      by_cases h3 : f.length = 3
      · have hk : keepMesh m = true := by simp [keepMesh, hf, h3]
        simp [filterMeshes, hf, h3, hk, List.filter_cons, ih.1, ih.2]
      · have hk : keepMesh m = false := by simp [keepMesh, hf, h3]
        simp [filterMeshes, hf, h3, hk, List.filter_cons, ih.1, ih.2]

/-- Element lookup after the parallel phase: slot `j` holds `process j`
exactly when some task in the completion order wrote it; other slots are
untouched. -/
theorem runParallelTasks_getElem? {α : Type} (process : ℕ → α) (order : List ℕ)
    (slots : List (Option α)) (j : ℕ) :
    (runParallelTasks process order slots)[j]? =
      if j ∈ order ∧ j < slots.length then some (some (process j))
      else slots[j]? := by
  induction order generalizing slots with
  | nil => simp [runParallelTasks]
  | cons i rest ih =>
    show (runParallelTasks process rest (slots.set i (some (process i))))[j]? = _
    rw [ih, List.length_set]
    by_cases hjr : j ∈ rest
    · by_cases hlen : j < slots.length
      · simp [hjr, hlen]
      · rw [if_neg (by tauto), if_neg (by tauto),
          List.getElem?_eq_none (l := slots.set i (some (process i)))
            (by rw [List.length_set]; omega),
          List.getElem?_eq_none (by omega)]
    · by_cases hji : j = i
      · subst hji
        by_cases hlen : j < slots.length
        · rw [if_neg (by tauto), if_pos ⟨List.mem_cons_self _ _, hlen⟩,
            List.getElem?_set]
          simp [hlen]
        · rw [if_neg (by tauto), if_neg (by tauto), List.getElem?_set]
          simp only [if_pos rfl, if_neg hlen]
          exact (List.getElem?_eq_none (by omega)).symm
      · rw [if_neg (by tauto), List.getElem?_set, if_neg (Ne.symm hji),
          if_neg (by simp [List.mem_cons, hjr, hji])]

/-- Claim C5.  The parallel per-mesh phase writes each result into its own
pre-sized slot, so for ANY completion order that is a permutation of the
task indices the resulting collection equals the in-order map of the
per-mesh processing — and the sequential commit, which iterates that
collection in original external mesh order, therefore commits the same
(mesh id, processed mesh) sequence regardless of the completion order. -/
theorem c5_deterministic_commit {α : Type} (process : ℕ → α) (n : ℕ)
    (order1 order2 : List ℕ)
    (h1 : order1.Perm (List.range n)) (h2 : order2.Perm (List.range n)) :
    runParallelTasks process order1 (List.replicate n none)
      = (List.range n).map (fun i => some (process i)) ∧
    commitProcessed (runParallelTasks process order1 (List.replicate n none))
      = commitProcessed (runParallelTasks process order2 (List.replicate n none)) := by
  have key : ∀ order : List ℕ, order.Perm (List.range n) →
      runParallelTasks process order (List.replicate n none)
        = (List.range n).map (fun i => some (process i)) := by
    intro order hp
    apply List.ext_getElem?
    intro j
    rw [runParallelTasks_getElem?, List.getElem?_map]
    have hmem : j ∈ order ↔ j < n := by rw [hp.mem_iff, List.mem_range]
    by_cases hj : j < n
    · rw [if_pos ⟨hmem.2 hj, by simpa using hj⟩, List.getElem?_range hj]
      rfl
    · rw [if_neg (by simp [hmem, hj]), List.getElem?_replicate, if_neg hj,
        List.getElem?_eq_none (by simpa using not_lt.1 hj)]
      rfl
  exact ⟨key order1 h1, by rw [key order1 h1, key order2 h2]⟩

/-- `List.Forall₂` holds between two equally long replications of related
elements. -/
theorem forall₂_replicate {α β : Type} {R : α → β → Prop} {a : α} {b : β}
    (h : R a b) : ∀ n, List.Forall₂ R (List.replicate n a) (List.replicate n b) := by
  intro n
  induction n with
  | zero => exact List.Forall₂.nil
  | succ n ih => exact List.Forall₂.cons h ih

/-- `List.Forall₂` transports through `getD` at any index when the defaults
are related. -/
theorem forall₂_getD {α β : Type} {R : α → β → Prop} {l₁ : List α} {l₂ : List β}
    (h : List.Forall₂ R l₁ l₂) (d₁ : α) (d₂ : β) (hd : R d₁ d₂) :
    ∀ n, R (l₁.getD n d₁) (l₂.getD n d₂) := by
  induction h with
  | nil => intro n; simpa using hd
  | cons hab htail ih =>
    intro n
    cases n with
    | zero => simpa using hab
    | succ n => simpa using ih n

/-- `List.Forall₂` is preserved by setting related elements at the same
index. -/
theorem forall₂_set {α β : Type} {R : α → β → Prop} {l₁ : List α} {l₂ : List β}
    (h : List.Forall₂ R l₁ l₂) {a : α} {b : β} (hab : R a b) :
    ∀ n, List.Forall₂ R (l₁.set n a) (l₂.set n b) := by
  induction h with
  | nil => intro n; simp
  | cons hxy htail ih =>
    intro n
    cases n with
    | zero => simpa using List.Forall₂.cons hab htail
    | succ n => simpa using List.Forall₂.cons hxy (ih n)

/-- Every left element of a `List.Forall₂` pair has a related right
element. -/
theorem forall₂_mem_left {α β : Type} {R : α → β → Prop} {l₁ : List α}
    {l₂ : List β} {a : α} (h : List.Forall₂ R l₁ l₂) (ha : a ∈ l₁) :
    ∃ b ∈ l₂, R a b := by
  induction h with
  | nil => simp at ha
  | cons hxy htail ih =>
    rcases List.mem_cons.1 ha with rfl | ha2
    · exact ⟨_, List.mem_cons_self _ _, hxy⟩
    · obtain ⟨b, hb, hr⟩ := ih ha2
      exact ⟨b, List.mem_cons_of_mem _ hb, hr⟩

/-- Every right element of a `List.Forall₂` pair has a related left
element. -/
theorem forall₂_mem_right {α β : Type} {R : α → β → Prop} {l₁ : List α}
    {l₂ : List β} {b : β} (h : List.Forall₂ R l₁ l₂) (hb : b ∈ l₂) :
    ∃ a ∈ l₁, R a b := by
  induction h with
  | nil => simp at hb
  | cons hxy htail ih =>
    rcases List.mem_cons.1 hb with rfl | hb2
    · exact ⟨_, List.mem_cons_self _ _, hxy⟩
    · obtain ⟨a, ha, hr⟩ := ih hb2
      exact ⟨a, List.mem_cons_of_mem _ ha, hr⟩

/-- A fold preserves any invariant its steps preserve. -/
theorem foldl_preserve {α β : Type} {P : β → Prop} (f : β → α → β) :
    ∀ (l : List α) (s : β), P s → (∀ b, ∀ a ∈ l, P b → P (f b a)) →
      P (l.foldl f s) := by
  intro l
  induction l with
  | nil => intro s h _; simpa using h
  | cons a rest ih =>
    intro s h hstep
    simp only [List.foldl_cons]
    exact ih (f s a) (hstep s a (List.mem_cons_self _ _) h)
      (fun b x hx hb => hstep b x (List.mem_cons_of_mem _ hx) hb)

/-- Writing a positive weight with a valid bone id into the first free slot
preserves the slot invariant. -/
theorem writeFirstFreeSlot_slotInv {ids : List ℕ} {ws : List ℚ} {bid : ℕ} {w : ℚ}
    (h : SlotInv ids ws) (hb : bid ≠ kInvalidID) (hw : 0 < w) :
    SlotInv (writeFirstFreeSlot ids ws bid w).1 (writeFirstFreeSlot ids ws bid w).2.1 := by
  induction h with
  | nil => exact List.Forall₂.nil
  | @cons a b l₁ l₂ hxy htail ih =>
    by_cases ha : a = kInvalidID
    · simp only [writeFirstFreeSlot, if_pos ha]
      exact List.Forall₂.cons (Or.inr ⟨hb, hw⟩) htail
    · simp only [writeFirstFreeSlot, if_neg ha]
      exact List.Forall₂.cons hxy ih

/-- One step of the per-weight loop of `loadBones` preserves the state
invariant, provided the bone's id is valid and the weight nonnegative. -/
theorem stateInv_applyVertexWeight {acc : SkinState × ℕ} {bid : ℕ} {vw : ℕ × ℚ}
    (h : StateInv acc.1) (hb : bid ≠ kInvalidID) (hw : 0 ≤ vw.2) :
    StateInv (applyVertexWeight bid acc vw).1 := by
  by_cases hz : vw.2 = 0
  · simpa [applyVertexWeight, hz] using h
  · have hpos : 0 < vw.2 := lt_of_le_of_ne hw (Ne.symm hz)
    have hslot : SlotInv (acc.1.ids.getD vw.1 []) (acc.1.ws.getD vw.1 []) :=
      forall₂_getD h [] [] List.Forall₂.nil vw.1
    have hw2 := writeFirstFreeSlot_slotInv hslot hb hpos
    simp only [applyVertexWeight, if_neg hz]
    exact forall₂_set h hw2 vw.1

/-- After the whole slot-assignment phase the state invariant holds, for
bones with valid node ids and nonnegative weights. -/
theorem stateInv_skinAssign (vc : ℕ) (bones : List SkinBone)
    (hb : ∀ b ∈ bones, b.boneId ≠ kInvalidID)
    (hw : ∀ b ∈ bones, ∀ vw ∈ b.weights, 0 ≤ vw.2) :
    StateInv (skinAssign vc bones).1 := by
  unfold skinAssign
  refine foldl_preserve (P := fun (acc : SkinState × ℕ) => StateInv acc.1) _ _ _ ?_ ?_
  · have hslot : SlotInv (List.replicate kMaxBonesPerVertex kInvalidID)
        (List.replicate kMaxBonesPerVertex (0 : ℚ)) := by
      unfold SlotInv
      refine forall₂_replicate ?_ _
      exact Or.inl ⟨rfl, rfl⟩
    show StateInv (initialSkinState vc)
    unfold StateInv initialSkinState
    exact forall₂_replicate hslot vc
  · intro acc bone hbone hacc
    unfold processBone
    refine foldl_preserve (P := fun (acc : SkinState × ℕ) => StateInv acc.1) _ _ _ hacc ?_
    intro acc2 vw hvw hacc2
    exact stateInv_applyVertexWeight hacc2 (hb bone hbone) (hw bone hbone vw hvw)

/-- Summing after dividing every element by `c` is dividing the sum
by `c`. -/
theorem sum_map_div (l : List ℚ) (c : ℚ) :
    (l.map fun x => x / c).sum = l.sum / c := by
  induction l with
  | nil => simp
  | cons x xs ih => simp [ih, div_add_div_same]

/-- A list with a positive member and no negative members has a positive
sum. -/
theorem sum_pos_of_mem {l : List ℚ} {b : ℚ} (hb : b ∈ l) (hpos : 0 < b)
    (hnn : ∀ x ∈ l, 0 ≤ x) : 0 < l.sum := by
  induction l with
  | nil => simp at hb
  | cons c cs ih =>
    have hcs : ∀ x ∈ cs, 0 ≤ x := fun x hx => hnn x (List.mem_cons_of_mem _ hx)
    rcases List.mem_cons.1 hb with rfl | hb2
    · have h2 : 0 ≤ cs.sum := List.sum_nonneg hcs
      simp only [List.sum_cons]
      linarith
    · have hc : 0 ≤ c := hnn c (List.mem_cons_self _ _)
      have h2 := ih hb2 hcs
      simp only [List.sum_cons]
      linarith

/-- The slot-search loop of `loadBones` writes at exactly the FIRST slot
still holding `kInvalidID`, and reports a drop when no slot is free. -/
theorem writeFirstFreeSlot_eq (ids : List ℕ) :
    ∀ (ws : List ℚ), ids.length = ws.length → ∀ (bid : ℕ) (w : ℚ),
    writeFirstFreeSlot ids ws bid w =
      (if kInvalidID ∈ ids
       then (ids.set (ids.findIdx fun i => i == kInvalidID) bid,
             ws.set (ids.findIdx fun i => i == kInvalidID) w, true)
       else (ids, ws, false)) := by
  induction ids with
  | nil =>
    intro ws hlen bid w
    have hws : ws = [] := by cases ws <;> simp_all
    subst hws
    simp [writeFirstFreeSlot]
  | cons i is ih =>
    intro ws hlen bid w
    cases ws with
    | nil => simp at hlen
    | cons x xs =>
      have hlen2 : is.length = xs.length := by simpa using hlen
      by_cases hi : i = kInvalidID
      · subst hi
        simp [writeFirstFreeSlot, List.findIdx_cons]
      · have hpi : (i == kInvalidID) = false := by simpa using hi
        simp only [writeFirstFreeSlot, if_neg hi, ih xs hlen2 bid w]
        by_cases hm : kInvalidID ∈ is
        · simp [hm, hi, List.findIdx_cons, hpi, Ne.symm hi]
        · simp [hm, hi, List.findIdx_cons, hpi, Ne.symm hi]

/-- Claim C2.  Skin-weight assignment: a zero-weight (vertex, weight) pair
is skipped outright; a nonzero pair is written into the FIRST slot of the
vertex's influence arrays still holding `kInvalidID` (slot search over the
fixed-width arrays) and, when no slot is free, the arrays are unchanged and
the influence is dropped (the caller then logs the non-fatal warning); and
after all bones are processed, any vertex that received at least one
influence has its weights divided by their sum, so they sum to 1 — stated
for bones carrying valid node ids and nonnegative source weights. -/
theorem c2_skin_weight_assignment
    (vertexCount : ℕ) (bones : List SkinBone)
    (hb : ∀ b ∈ bones, b.boneId ≠ kInvalidID)
    (hw : ∀ b ∈ bones, ∀ vw ∈ b.weights, 0 ≤ vw.2)
    (acc : SkinState × ℕ) (bid vid : ℕ)
    (ids : List ℕ) (ws : List ℚ) (bid2 : ℕ) (w : ℚ)
    (hlen : ids.length = ws.length)
    (vtx : ℕ)
    (hinf : ∃ i ∈ (skinAssign vertexCount bones).1.ids.getD vtx [], i ≠ kInvalidID) :
    applyVertexWeight bid acc (vid, 0) = acc ∧
    writeFirstFreeSlot ids ws bid2 w =
      (if kInvalidID ∈ ids
       then (ids.set (ids.findIdx fun i => i == kInvalidID) bid2,
             ws.set (ids.findIdx fun i => i == kInvalidID) w, true)
       else (ids, ws, false)) ∧
    ((loadBones vertexCount bones).1.ws.getD vtx []).sum = 1 := by
  refine ⟨by simp [applyVertexWeight], writeFirstFreeSlot_eq ids ws hlen bid2 w, ?_⟩
  have inv : StateInv (skinAssign vertexCount bones).1 :=
    stateInv_skinAssign vertexCount bones hb hw
  obtain ⟨iid, hmem, hne⟩ := hinf
  have hlt : vtx < (skinAssign vertexCount bones).1.ids.length := by
    by_contra hge
    rw [List.getD_eq_default _ _ (not_lt.1 hge)] at hmem
    simp at hmem
  have hslot : SlotInv ((skinAssign vertexCount bones).1.ids.getD vtx [])
      ((skinAssign vertexCount bones).1.ws.getD vtx []) :=
    forall₂_getD inv [] [] List.Forall₂.nil vtx
  obtain ⟨b, hbmem, hr⟩ := forall₂_mem_left hslot hmem
  have hbpos : 0 < b := by
    rcases hr with ⟨heq, _⟩ | ⟨_, hp⟩
    · exact absurd heq hne
    · exact hp
  have hnn : ∀ x ∈ (skinAssign vertexCount bones).1.ws.getD vtx [], 0 ≤ x := by
    intro x hx
    obtain ⟨a, _, hra⟩ := forall₂_mem_right hslot hx
    rcases hra with ⟨_, hz⟩ | ⟨_, hp⟩
    · exact le_of_eq hz.symm
    · exact le_of_lt hp
  have hsum : 0 < ((skinAssign vertexCount bones).1.ws.getD vtx []).sum :=
    sum_pos_of_mem hbmem hbpos hnn
  have hlen2 : (skinAssign vertexCount bones).1.ids.length
      = (skinAssign vertexCount bones).1.ws.length := inv.length_eq
  have hlt2 : vtx < (skinAssign vertexCount bones).1.ws.length := hlen2 ▸ hlt
  have hget : (loadBones vertexCount bones).1.ws.getD vtx []
      = ((skinAssign vertexCount bones).1.ws.getD vtx []).map
          (fun x => x / ((skinAssign vertexCount bones).1.ws.getD vtx []).sum) := by
    show (normalizeWeights (skinAssign vertexCount bones).1.ws).getD vtx [] = _
    unfold normalizeWeights
    rw [List.getD_eq_getElem _ _ (by simpa using hlt2),
      List.getElem_map, List.getD_eq_getElem _ _ hlt2]
  rw [hget, sum_map_div]
  exact div_self (ne_of_gt hsum)

/-- Witness for `c2_skin_weight_assignment` at a concrete input. -/
theorem c2_skin_weight_assignment_witness :
    applyVertexWeight 9 ((⟨[], []⟩ : SkinState), 0) (5, 0) = ((⟨[], []⟩ : SkinState), 0) ∧
    writeFirstFreeSlot [kInvalidID] [0] 8 2 =
      (if kInvalidID ∈ [kInvalidID]
       then ([kInvalidID].set (([kInvalidID] : List ℕ).findIdx fun i => i == kInvalidID) 8,
             ([0] : List ℚ).set (([kInvalidID] : List ℕ).findIdx fun i => i == kInvalidID) 2, true)
       else ([kInvalidID], [0], false)) ∧
    ((loadBones 1 [⟨7, [(0, 1), (0, 2)]⟩]).1.ws.getD 0 []).sum = 1 :=
  c2_skin_weight_assignment 1 [⟨7, [(0, 1), (0, 2)]⟩]
    (by decide) (by decide) ((⟨[], []⟩ : SkinState), 0) 9 5 [kInvalidID] [0] 8 2
    (by decide) 0 (by decide)

/-- Claim C9.  A vertex of a skinned mesh that receives no bone influence
keeps `kInvalidID` in all four slots, but the final normalization pass of
`loadBones` still divides its weights by their sum, which is 0 for such a
vertex: with 2 vertices and one bone fully weighting vertex 0 only, the
pre-normalization slot-weight sums are `[1, 0]`, so the unguarded `w /= f`
(line 517) divides vertex 1's weights by zero (in IEEE arithmetic this
produces NaN weights, not the claimed exact zeros). -/
theorem c9_zero_divisor :
    (skinAssign 2 [⟨7, [(0, 1)]⟩]).1.ws = [[1, 0, 0, 0], [0, 0, 0, 0]] ∧
    (skinAssign 2 [⟨7, [(0, 1)]⟩]).1.ids
      = [[7, kInvalidID, kInvalidID, kInvalidID], List.replicate 4 kInvalidID] ∧
    ([0, 0, 0, 0] : List ℚ).sum = 0 := by
  refine ⟨by decide, by decide, by simp⟩

/-- The per-bone validator loop, entered with a previous transform: it
passes exactly when every mesh in the list has exactly one instance, the
instance transforms agree pairwise along the list, and the first one agrees
with the carried previous transform. -/
theorem checkBoneMeshes_none_some (instT : ℕ → List Mat4) (bone : String) :
    ∀ (l : List ℕ) (tp : Mat4),
    (checkBoneMeshes instT bone (some tp) l = none ↔
      (∀ m ∈ l, (instT m).length = 1) ∧
      List.Chain' (fun a b => (instT a).headD identityMat = (instT b).headD identityMat) l ∧
      (∀ m0 ∈ l.head?, (instT m0).headD identityMat = tp)) := by
  intro l
  induction l with
  | nil => intro tp; simp [checkBoneMeshes]
  | cons m rest ih =>
    intro tp
    simp only [checkBoneMeshes]
    by_cases h1 : (instT m).length ≠ 1
    · rw [if_pos h1]
      refine iff_of_false (by simp) ?_
      rintro ⟨ha, -, -⟩
      exact h1 (ha m (List.mem_cons_self m rest))
    · rw [if_neg h1]
      push_neg at h1
      by_cases h2 : (instT m).headD identityMat ≠ tp
      · rw [if_pos h2]
        refine iff_of_false (by simp) ?_
        rintro ⟨-, -, hh⟩
        exact h2 (hh m (by simp))
      · rw [if_neg h2]
        push_neg at h2
        rw [ih ((instT m).headD identityMat)]
        constructor
        · rintro ⟨ha, hc, hh⟩
          refine ⟨?_, ?_, ?_⟩
          · intro m2 hm2
            rcases List.mem_cons.1 hm2 with rfl | hm3
            · exact h1
            · exact ha m2 hm3
          · rw [List.chain'_cons']
            exact ⟨fun y hy => (hh y hy).symm, hc⟩
          · intro m0 hm0
            simp only [List.head?_cons, Option.mem_def, Option.some.injEq] at hm0
            exact hm0 ▸ h2
        · rintro ⟨ha, hc, hh⟩
          rw [List.chain'_cons'] at hc
          refine ⟨fun m2 hm2 => ha m2 (List.mem_cons_of_mem _ hm2), hc.2, ?_⟩
          intro m0 hm0
          exact (hc.1 m0 hm0).symm

/-- The per-bone validator loop from its initial state: it passes exactly
when every mesh in the bone's list has exactly one instance and the
instance transforms agree pairwise along the list. -/
theorem checkBoneMeshes_none_iff (instT : ℕ → List Mat4) (bone : String)
    (l : List ℕ) :
    checkBoneMeshes instT bone none l = none ↔
      (∀ m ∈ l, (instT m).length = 1) ∧
      List.Chain' (fun a b => (instT a).headD identityMat = (instT b).headD identityMat) l := by
  cases l with
  | nil => simp [checkBoneMeshes]
  | cons m rest =>
    simp only [checkBoneMeshes]
    by_cases h1 : (instT m).length ≠ 1
    · rw [if_pos h1]
      refine iff_of_false (by simp) ?_
      rintro ⟨ha, -⟩
      exact h1 (ha m (List.mem_cons_self m rest))
    · rw [if_neg h1]
      push_neg at h1
      rw [checkBoneMeshes_none_some]
      constructor
      · rintro ⟨ha, hc, hh⟩
        refine ⟨?_, ?_⟩
        · intro m2 hm2
          rcases List.mem_cons.1 hm2 with rfl | hm3
          · exact h1
          · exact ha m2 hm3
        · rw [List.chain'_cons']
          exact ⟨fun y hy => (hh y hy).symm, hc⟩
      · rintro ⟨ha, hc⟩
        rw [List.chain'_cons'] at hc
        refine ⟨fun m2 hm2 => ha m2 (List.mem_cons_of_mem _ hm2), hc.2, ?_⟩
        intro m0 hm0
        exact (hc.1 m0 hm0).symm

/-- The whole validator passes exactly when every bone passes. -/
theorem validateBonesGo_none_iff (instT : ℕ → List Mat4) (meshes : List AiMeshSrc) :
    ∀ (names : List String),
    (validateBonesGo instT meshes names = none ↔
      ∀ name ∈ names,
        (∀ m ∈ boneMeshList meshes name, (instT m).length = 1) ∧
        List.Chain' (fun a b => (instT a).headD identityMat = (instT b).headD identityMat)
          (boneMeshList meshes name)) := by
  intro names
  induction names with
  | nil => simp [validateBonesGo]
  | cons n rest ih =>
    simp only [validateBonesGo]
    cases hc : checkBoneMeshes instT n none (boneMeshList meshes n) with
    | some e =>
      refine iff_of_false (by simp) ?_
      intro h
      have h2 := (checkBoneMeshes_none_iff instT n (boneMeshList meshes n)).2
        (h n (List.mem_cons_self n rest))
      rw [hc] at h2
      exact Option.noConfusion h2
    | none =>
      rw [ih]
      have hn := (checkBoneMeshes_none_iff instT n (boneMeshList meshes n)).1 hc
      constructor
      · intro h name hname
        rcases List.mem_cons.1 hname with rfl | hname2
        · exact hn
        · exact h name hname2
      · intro h name hname
        exact h name (List.mem_cons_of_mem _ hname)

/-- Claim C4, counterexample.  A scene with one mesh owning bone "B" while
NO node instances that mesh violates neither of the claim's two conditions
(no mesh is attached to more than one node instance — here the count is
zero — and there are no two instances with different transforms), yet
`validateBones` throws the `multipleInstances` error, because its test is
`meshInstances[...].size() != 1`, which also rejects a count of zero. -/
theorem c4_zero_instance_rejected :
    validateBones [⟨"M", [[0, 1, 2]], ["B"]⟩] (AiNode.mk "root" identityMat [] [])
      = some (BoneError.multipleInstances "B") ∧
    meshInstanceTransforms (AiNode.mk "root" identityMat [] []) 0 = [] := by
  exact ⟨by decide, by decide⟩

/-- Claim C4, amended.  `validateBones` (which `validateScene` runs before
`createSceneGraph` and `createMeshes`, as the pipeline-order conjuncts
record) raises no error exactly when, for every declared bone, every mesh
the bone affects is attached to exactly ONE node instance (a count of zero
also fails, with the same `multipleInstances` error) and the node
transformations of the single instances of the meshes sharing that bone
agree pairwise along the bone's mesh list; the two failure modes carry
distinct named errors (`multipleInstances`, `differentWorldMatrices`). -/
theorem c4_validate_amended (meshes : List AiMeshSrc) (root : AiNode) :
    (validateBones meshes root = none ↔
      ∀ name ∈ allBoneNames meshes,
        (∀ m ∈ boneMeshList meshes name, (meshInstanceTransforms root m).length = 1) ∧
        List.Chain' (fun a b => (meshInstanceTransforms root a).headD identityMat
          = (meshInstanceTransforms root b).headD identityMat)
          (boneMeshList meshes name)) ∧
    importStages.indexOf ImportStage.validate < importStages.indexOf ImportStage.sceneGraph ∧
    importStages.indexOf ImportStage.validate < importStages.indexOf ImportStage.meshes ∧
    ∀ b1 b2 : String, BoneError.multipleInstances b1 ≠ BoneError.differentWorldMatrices b2 := by
  refine ⟨validateBonesGo_none_iff _ meshes _, by decide, by decide, ?_⟩
  intro b1 b2
  exact fun h => BoneError.noConfusion h

/-- The instance-expansion loop creates exactly the nodes the specification
describes: one per non-identity transform, named from the node id and the
running instance index, parented under the node, carrying the transform. -/
theorem expandInstances_nodes (nodeID meshID : ℕ) :
    ∀ (l : List Mat4) (nextID idx : ℕ),
    (expandInstances nodeID meshID nextID idx l).1 = expectedNewNodes nodeID idx l := by
  intro l
  induction l with
  | nil => intro nextID idx; rfl
  | cons m rest ih =>
    intro nextID idx
    by_cases hm : m = identityMat
    · simp [expandInstances, expectedNewNodes, hm, ih]
    · simp [expandInstances, expectedNewNodes, hm, ih]

/-- The specification-side node list has one node per non-identity
transform. -/
theorem expectedNewNodes_length (nodeID : ℕ) :
    ∀ (l : List Mat4) (idx : ℕ),
    (expectedNewNodes nodeID idx l).length = countNonIdentity l := by
  intro l
  induction l with
  | nil => intro idx; rfl
  | cons m rest ih =>
    intro idx
    by_cases hm : m = identityMat
    · simp [expectedNewNodes, countNonIdentity, hm, ih]
    · simp only [expectedNewNodes, if_neg hm, List.length_cons, countNonIdentity, ih]
      omega

/-- The instance-expansion loop emits one mesh-instance binding per
requested transform. -/
theorem expandInstances_bindings_length (nodeID meshID : ℕ) :
    ∀ (l : List Mat4) (nextID idx : ℕ),
    (expandInstances nodeID meshID nextID idx l).2.1.length = l.length := by
  intro l
  induction l with
  | nil => intro nextID idx; rfl
  | cons m rest ih =>
    intro nextID idx
    by_cases hm : m = identityMat
    · simp [expandInstances, hm, ih]
    · simp [expandInstances, hm, ih]

/-- The `i`-th emitted binding: an identity transform binds the mesh to the
existing node; a non-identity transform binds it to the freshly created
node, whose id is `nextID` plus the number of non-identity transforms
already consumed. -/
theorem expandInstances_bindings_getD (nodeID meshID : ℕ) :
    ∀ (l : List Mat4) (nextID idx i : ℕ), i < l.length →
    (expandInstances nodeID meshID nextID idx l).2.1.getD i (0, 0) =
      (if l.getD i identityMat = identityMat then nodeID
       else nextID + countNonIdentity (l.take i), meshID) := by
  intro l
  induction l with
  | nil => intro nextID idx i hi; simp at hi
  | cons m rest ih =>
    intro nextID idx i hi
    by_cases hm : m = identityMat
    · cases i with
      | zero => simp [expandInstances, hm]
      | succ i =>
        have hi2 : i < rest.length := by simpa using hi
        simp only [expandInstances, if_pos hm, List.getD_cons_succ,
          List.take_succ_cons]
        rw [ih _ _ i hi2]
        simp [countNonIdentity, hm]
    · cases i with
      | zero => simp [expandInstances, hm, countNonIdentity]
      | succ i =>
        have hi2 : i < rest.length := by simpa using hi
        simp only [expandInstances, if_neg hm, List.getD_cons_succ,
          List.take_succ_cons]
        rw [ih _ _ i hi2]
        by_cases hri : rest.getD i identityMat = identityMat
        · rw [if_pos hri, if_pos hri]
        · rw [if_neg hri, if_neg hri]
          have hcount : countNonIdentity (m :: List.take i rest)
              = 1 + countNonIdentity (List.take i rest) := by
            simp [countNonIdentity, hm]
          rw [hcount]
          have harith : nextID + 1 + countNonIdentity (List.take i rest)
              = nextID + (1 + countNonIdentity (List.take i rest)) := by omega
          rw [harith]

/-- Witness for `c5_deterministic_commit` at a concrete input. -/
theorem c5_deterministic_commit_witness :
    runParallelTasks (fun i => i * i) [2, 0, 1] (List.replicate 3 none)
      = (List.range 3).map (fun i => some (i * i)) ∧
    commitProcessed (runParallelTasks (fun i => i * i) [2, 0, 1] (List.replicate 3 none))
      = commitProcessed (runParallelTasks (fun i => i * i) [1, 2, 0] (List.replicate 3 none)) :=
  c5_deterministic_commit (fun i => i * i) 3 [2, 0, 1] [1, 2, 0] (by decide) (by decide)

/-- Claim C6.  For a node's mesh reference, when N ≥ 2 instance transforms
are requested of which K are non-identity: the expansion creates exactly
the K nodes described by `expectedNewNodes` (each parented under the node,
named "Node{nodeID}.instance{i}" from the node's identifier and the
instance index, carrying the transform), emits exactly N mesh-instance
bindings, and the `i`-th binding targets the existing node when transform
`i` is the identity and the freshly created node otherwise. -/
theorem c6_instance_expansion (nodeID meshID nextID : ℕ) (instances : List Mat4)
    (hN : 2 ≤ instances.length) (i : ℕ) (hi : i < instances.length) :
    (addMeshInstancesForMesh nodeID meshID nextID instances).1
      = expectedNewNodes nodeID 0 instances ∧
    (addMeshInstancesForMesh nodeID meshID nextID instances).1.length
      = countNonIdentity instances ∧
    (addMeshInstancesForMesh nodeID meshID nextID instances).2.1.length
      = instances.length ∧
    (addMeshInstancesForMesh nodeID meshID nextID instances).2.1.getD i (0, 0)
      = (if instances.getD i identityMat = identityMat then nodeID
         else nextID + countNonIdentity (instances.take i), meshID) := by
  have hne : instances ≠ [] := by
    intro h
    rw [h] at hN
    simp at hN
  unfold addMeshInstancesForMesh
  rw [if_neg hne]
  refine ⟨expandInstances_nodes nodeID meshID instances nextID 0, ?_, ?_, ?_⟩
  · rw [expandInstances_nodes]
    exact expectedNewNodes_length nodeID instances 0
  · exact expandInstances_bindings_length nodeID meshID instances nextID 0
  · exact expandInstances_bindings_getD nodeID meshID instances nextID 0 i hi

/-- Witness for `c6_instance_expansion` at a concrete input: two requested
transforms, the first the identity, the second not. -/
theorem c6_instance_expansion_witness :
    (addMeshInstancesForMesh 5 2 10 [identityMat, ⟨[2]⟩]).1
      = expectedNewNodes 5 0 [identityMat, ⟨[2]⟩] ∧
    (addMeshInstancesForMesh 5 2 10 [identityMat, ⟨[2]⟩]).1.length
      = countNonIdentity [identityMat, ⟨[2]⟩] ∧
    (addMeshInstancesForMesh 5 2 10 [identityMat, ⟨[2]⟩]).2.1.length
      = ([identityMat, ⟨[2]⟩] : List Mat4).length ∧
    (addMeshInstancesForMesh 5 2 10 [identityMat, ⟨[2]⟩]).2.1.getD 1 (0, 0)
      = (if ([identityMat, ⟨[2]⟩] : List Mat4).getD 1 identityMat = identityMat then 5
         else 10 + countNonIdentity (([identityMat, ⟨[2]⟩] : List Mat4).take 1), 2) :=
  c6_instance_expansion 5 2 10 [identityMat, ⟨[2]⟩] (by decide) 1 (by decide)

/-- Claim C10.  `data.meshMap` is keyed by the commit-loop counter over the
FILTERED mesh list, not by the original external mesh index, so as soon as
the filter skips a mesh the instance-attachment lookup shifts: with meshes
[E (no faces, skipped), A, B], a node referencing original mesh 1 (mesh A)
looks up key 1 and receives the id under which mesh B was committed, and a
node referencing original mesh 2 (mesh B) finds no entry at all
(`std::map::at` throws).  This contradicts the map's own declaration
comment "Assimp mesh index to Falcor mesh ID" (line 156). -/
theorem c10_mesh_map_shifted :
    lookupMeshID [⟨"E", [], []⟩, ⟨"A", [[0, 1, 2]], []⟩, ⟨"B", [[3, 4, 5]], []⟩] 1
      = some 1 ∧
    (committedMeshes [⟨"E", [], []⟩, ⟨"A", [[0, 1, 2]], []⟩, ⟨"B", [[3, 4, 5]], []⟩]).getD 1
        ⟨"", [], []⟩
      = ⟨"B", [[3, 4, 5]], []⟩ ∧
    ([⟨"E", [], []⟩, ⟨"A", [[0, 1, 2]], []⟩, ⟨"B", [[3, 4, 5]], []⟩] : List AiMeshSrc).getD 1
        ⟨"", [], []⟩
      = ⟨"A", [[0, 1, 2]], []⟩ ∧
    (⟨"B", [[3, 4, 5]], []⟩ : AiMeshSrc) ≠ ⟨"A", [[0, 1, 2]], []⟩ ∧
    lookupMeshID [⟨"E", [], []⟩, ⟨"A", [[0, 1, 2]], []⟩, ⟨"B", [[3, 4, 5]], []⟩] 2
      = none := by
  decide

end AssimpSpec
